import Mathlib

/-!
Verification of the Daily Glow Tracker data model (src/src/App.jsx).

The category-store operations (`addItem`, `deleteItem`, `toggleComplete`,
`saveEdit`, `addDefaultItems`) and the snapshot codec (`handleExport`,
`handleImport`) are embedded as pure Lean functions over explicit state.
JavaScript objects used as day-keyed completion maps are modelled as
insertion-ordered association lists (`List (String × Bool)`): assigning to
an existing key replaces its value in place, assigning to a fresh key
appends it at the end, and reading an absent key behaves as falsy.
Timestamps and freshly generated ids (`Date.now()`, `Date.now() +
Math.random()`) are passed in as explicit parameters, one per generation
site, since their values come from the environment.
-/

set_option autoImplicit false

namespace Tracker

/-- A Tracked Item, mirroring the object literal built in `addItem`:
`{ id, name, completed, createdAt }`.  The `completed` field is the JS
object mapping day keys to booleans, as an insertion-ordered assoc list. -/
structure Item where
  id : Nat
  name : String
  completed : List (String × Bool)
  createdAt : String
  deriving DecidableEq, Repr, Inhabited

/-- Reading `m[k]` on a JS object: first (unique) matching key, else absent. -/
def lookupKey : List (String × Bool) → String → Option Bool
  | [], _ => none
  | (k', v) :: rest, k => if k' = k then some v else lookupKey rest k

/-- Writing `m[k] = v` on a JS object: replace the value of an existing key
in place, otherwise append the new key at the end. -/
def setKey : List (String × Bool) → String → Bool → List (String × Bool)
  | [], k, v => [(k, v)]
  | (k', v') :: rest, k, v =>
    if k' = k then (k', v) :: rest else (k', v') :: setKey rest k v

/-- JavaScript `String.prototype.trim()`: drop leading and trailing
whitespace characters. -/
def jsTrim (s : String) : String :=
  String.mk
    (((s.data.dropWhile Char.isWhitespace).reverse.dropWhile Char.isWhitespace).reverse)

/-- `addItem` from `TrackerPage`: if the typed name is non-empty after
trimming, append `{ id: Date.now(), name: trimmed, completed: {}, createdAt }`
to the sequence; otherwise do nothing.  `now` is the value of `Date.now()`
and `createdAt` the ISO timestamp, both supplied by the environment. -/
def addItem (now : Nat) (createdAt : String) (newItem : String)
    (items : List Item) : List Item :=
  if jsTrim newItem ≠ "" then
    items ++ [{ id := now, name := jsTrim newItem, completed := [], createdAt := createdAt }]
  else items

/-- `deleteItem` from `TrackerPage`: keep exactly the items whose id differs. -/
def deleteItem (id : Nat) (items : List Item) : List Item :=
  items.filter (fun item => decide (item.id ≠ id))

/-- The per-item body of `toggleComplete`: on the matching id, set
`newCompleted[today] = !newCompleted[today]` (absent reads as falsy). -/
def toggleItem (today : String) (id : Nat) (item : Item) : Item :=
  if item.id = id then
    { item with
      completed := setKey item.completed today (!((lookupKey item.completed today).getD false)) }
  else item

/-- `toggleComplete` from `TrackerPage`: map the per-item toggle over the
sequence. -/
def toggleComplete (today : String) (id : Nat) (items : List Item) : List Item :=
  items.map (toggleItem today id)

/-- `saveEdit` from `TrackerPage`: if the edit buffer is non-empty after
trimming, replace the name of every item whose id equals the id being
edited with the trimmed buffer; otherwise leave the sequence unchanged. -/
def saveEdit (editingItem : Nat) (editValue : String) (items : List Item) : List Item :=
  if jsTrim editValue ≠ "" then
    items.map (fun item =>
      if item.id = editingItem then { item with name := jsTrim editValue } else item)
  else items

/-- The fresh items built by `addDefaultItems`: one per default name, in
input order, each drawing a fresh id from the generator (`gen k` is the
value of `Date.now() + Math.random()` at the k-th call). -/
def seedItems (gen : Nat → Nat) (createdAt : String) : Nat → List String → List Item
  | _, [] => []
  | k, n :: rest =>
    { id := gen k, name := n, completed := [], createdAt := createdAt }
      :: seedItems gen createdAt (k + 1) rest

/-- `addDefaultItems` from `TrackerPage`: append the freshly built default
items to the current sequence. -/
def addDefaultItems (gen : Nat → Nat) (createdAt : String)
    (defaultItems : List String) (items : List Item) : List Item :=
  items ++ seedItems gen createdAt 0 defaultItems

/-! ### Snapshot codec: export / import (`handleExport`, `handleImport`)

The import path is untyped in the source (`JSON.parse` followed by
truthiness checks), so the parsed document and the six store contents are
modelled as JavaScript values.  `handleImport` takes the result of
`JSON.parse` (`none` when parsing threw) and returns the new store state
together with an error flag (`true` exactly when the error alert fires). -/

/-- A JavaScript value as produced by `JSON.parse`. -/
inductive JValue where
  | null : JValue
  | bool : Bool → JValue
  | num : Int → JValue
  | str : String → JValue
  | arr : List JValue → JValue
  | obj : List (String × JValue) → JValue

/-- First binding of a key in a JS object literal. -/
def lookupJ : List (String × JValue) → String → Option JValue
  | [], _ => none
  | (k', v) :: rest, k => if k' = k then some v else lookupJ rest k

/-- `data.k` member access: objects look the key up, `null` throws (handled
by `handleImport`), every other value yields `undefined` (`none`). -/
def jsMember (v : JValue) (k : String) : Option JValue :=
  match v with
  | JValue.obj kvs => lookupJ kvs k
  | _ => none

/-- JS truthiness of a possibly-`undefined` value, as tested by
`if (data.skincare)`: `undefined`, `null`, `false`, `0` and `""` are falsy;
everything else — including every array — is truthy. -/
def truthy : Option JValue → Bool
  | none => false
  | some JValue.null => false
  | some (JValue.bool b) => b
  | some (JValue.num n) => n != 0
  | some (JValue.str s) => s != ""
  | some (JValue.arr _) => true
  | some (JValue.obj _) => true

/-- Is the value a JSON sequence (array)? -/
def isSeq : JValue → Bool
  | JValue.arr _ => true
  | _ => false

/-- The six category stores of the app, holding raw JS values (normally
arrays of Tracked Items, but import performs no shape validation). -/
structure Stores where
  skincare : JValue
  haircare : JValue
  supplements : JValue
  study : JValue
  bodycare : JValue
  exercise : JValue

/-- `if (data.k) setItems(data.k)`: overwrite the store when the member is
truthy, otherwise leave it alone. -/
def setIf (cur : JValue) (mv : Option JValue) : JValue :=
  if truthy mv then mv.getD cur else cur

/-- `handleImport` from `App`: `parsed` is the result of `JSON.parse` on the
file's text (`none` when parsing threw).  On failure, or when the parsed
document is `null` (member access throws before any store is written), the
error alert fires and no store changes.  Otherwise each of the six fixed
keys overwrites its store exactly when its member value is truthy. -/
def handleImport (parsed : Option JValue) (st : Stores) : Stores × Bool :=
  match parsed with
  | none => (st, true)
  | some JValue.null => (st, true)
  | some d =>
    let st1 := { st with skincare := setIf st.skincare (jsMember d "skincare") }
    let st2 := { st1 with haircare := setIf st1.haircare (jsMember d "haircare") }
    let st3 := { st2 with supplements := setIf st2.supplements (jsMember d "supplements") }
    let st4 := { st3 with study := setIf st3.study (jsMember d "study") }
    let st5 := { st4 with bodycare := setIf st4.bodycare (jsMember d "bodycare") }
    let st6 := { st5 with exercise := setIf st5.exercise (jsMember d "exercise") }
    (st6, false)

/-- `handleExport` from `App`: the snapshot document handed to `exportData`,
with `now` the ISO timestamp of the export. -/
def handleExport (now : String) (st : Stores) : JValue :=
  JValue.obj
    [("skincare", st.skincare), ("haircare", st.haircare),
     ("supplements", st.supplements), ("study", st.study),
     ("bodycare", st.bodycare), ("exercise", st.exercise),
     ("exportDate", JValue.str now)]

/-! ### Assoc-list lemmas for the completion map -/

theorem lookupKey_setKey_self (m : List (String × Bool)) (k : String) (v : Bool) :
    lookupKey (setKey m k v) k = some v := by
  induction m with
  | nil => simp [setKey, lookupKey]
  | cons hd tl ih =>
    obtain ⟨k', v'⟩ := hd
    by_cases h : k' = k
    · simp [setKey, lookupKey, h]
    · simp [setKey, lookupKey, h, ih]

theorem lookupKey_setKey_ne (m : List (String × Bool)) (k d : String) (v : Bool)
    (hne : d ≠ k) : lookupKey (setKey m k v) d = lookupKey m d := by
  induction m with
  | nil => simp only [setKey, lookupKey, if_neg (Ne.symm hne)]
  | cons hd tl ih =>
    obtain ⟨k', v'⟩ := hd
    by_cases h : k' = k
    · subst h
      simp only [setKey, if_pos rfl, lookupKey, if_neg (Ne.symm hne)]
    · simp only [setKey, if_neg h, lookupKey]
      by_cases h2 : k' = d
      · simp only [if_pos h2]
      · simp only [if_neg h2, ih]

theorem setKey_setKey (m : List (String × Bool)) (k : String) (v v' : Bool) :
    setKey (setKey m k v') k v = setKey m k v := by
  induction m with
  | nil => simp [setKey]
  | cons hd tl ih =>
    obtain ⟨k', v₀⟩ := hd
    by_cases h : k' = k <;> simp [setKey, h, ih]

theorem setKey_of_lookup_eq (m : List (String × Bool)) (k : String) (v : Bool)
    (h : lookupKey m k = some v) : setKey m k v = m := by
  induction m with
  | nil => simp [lookupKey] at h
  | cons hd tl ih =>
    obtain ⟨k', v'⟩ := hd
    by_cases hk : k' = k
    · simp [lookupKey, hk] at h
      simp [setKey, hk, h]
    · simp [lookupKey, hk] at h
      simp [setKey, hk, ih h]

/-! ### Per-item toggle lemmas -/

theorem toggleItem_of_ne (today : String) (id : Nat) (item : Item)
    (h : item.id ≠ id) : toggleItem today id item = item := by
  simp [toggleItem, h]

theorem toggleItem_frame (today : String) (id : Nat) (item : Item)
    (day : String) (hday : day ≠ today) :
    lookupKey (toggleItem today id item).completed day = lookupKey item.completed day := by
  by_cases h : item.id = id
  · simp [toggleItem, h, lookupKey_setKey_ne _ _ _ _ hday]
  · simp [toggleItem, h]

theorem toggleItem_id_eq (today : String) (id : Nat) (item : Item) :
    (toggleItem today id item).id = item.id := by
  unfold toggleItem; split <;> rfl

theorem toggleItem_completed_eq (today : String) (id : Nat) (item : Item)
    (hid : item.id = id) :
    (toggleItem today id item).completed =
      setKey item.completed today (!((lookupKey item.completed today).getD false)) := by
  unfold toggleItem; rw [if_pos hid]

theorem toggleItem_twice_of_some (today : String) (id : Nat) (item : Item)
    (hid : item.id = id) (b : Bool) (hkey : lookupKey item.completed today = some b) :
    toggleItem today id (toggleItem today id item) = item := by
  have h1 : toggleItem today id item =
      { item with completed := setKey item.completed today (!b) } := by
    unfold toggleItem
    rw [if_pos hid, hkey]
    rfl
  rw [h1]
  unfold toggleItem
  rw [if_pos (show ({ item with completed := setKey item.completed today (!b) } : Item).id = id
    from hid)]
  show ({ item with
    completed := setKey (setKey item.completed today (!b)) today
      (!((lookupKey (setKey item.completed today (!b)) today).getD false)) } : Item) = item
  rw [lookupKey_setKey_self]
  simp only [Option.getD_some, Bool.not_not]
  rw [setKey_setKey, setKey_of_lookup_eq _ _ _ hkey]

theorem toggleItem_twice_of_none (today : String) (id : Nat) (item : Item)
    (hid : item.id = id) (hkey : lookupKey item.completed today = none) :
    lookupKey (toggleItem today id (toggleItem today id item)).completed today = some false := by
  have h1 : toggleItem today id item =
      { item with completed := setKey item.completed today true } := by
    unfold toggleItem
    rw [if_pos hid, hkey]
    rfl
  have hid1 : ({ item with completed := setKey item.completed today true } : Item).id = id := hid
  rw [h1, toggleItem_completed_eq _ _ _ hid1, lookupKey_setKey_self, lookupKey_setKey_self]
  rfl

/-- A map whose function fixes every member is the identity. -/
theorem map_eq_self_of {α : Type} (l : List α) (f : α → α)
    (h : ∀ a ∈ l, f a = a) : l.map f = l := by
  induction l with
  | nil => rfl
  | cons hd tl ih =>
    simp only [List.map_cons, h hd (List.mem_cons_self hd tl),
      ih (fun a ha => h a (List.mem_cons_of_mem hd ha))]

/-! ### Snapshot codec lemmas -/

theorem setIf_self (v : JValue) : setIf v (some v) = v := by
  unfold setIf; split <;> rfl

theorem setIf_match (cur : JValue) (mv : Option JValue) :
    setIf cur mv =
      (match mv with
       | some v => if truthy (some v) then v else cur
       | none => cur) := by
  cases mv with
  | none => rfl
  | some v => rfl

/-! ### Claims about the snapshot codec -/

/-- C4: for every input text that fails to parse as JSON, `handleImport`
signals the import error and leaves all six category stores unchanged
(`none` is the outcome of `JSON.parse` throwing on the raw text). -/
theorem import_parse_failure_no_mutation (st : Stores) :
    handleImport none st = (st, true) := rfl

/-- C5: exporting the six stores and importing the resulting snapshot
document reproduces the exact same store state (the `exportDate` field of
the document is ignored by import), for every store state and export
time. -/
theorem export_import_roundtrip (now : String) (st : Stores) :
    handleImport (some (handleExport now st)) st = (st, false) := by
  obtain ⟨s1, s2, s3, s4, s5, s6⟩ := st
  show (⟨setIf s1 (some s1), setIf s2 (some s2), setIf s3 (some s3),
      setIf s4 (some s4), setIf s5 (some s5), setIf s6 (some s6)⟩, false)
    = ((⟨s1, s2, s3, s4, s5, s6⟩ : Stores), false)
  rw [setIf_self, setIf_self, setIf_self, setIf_self, setIf_self, setIf_self]

/-- C3 (amended): on a parsed object document, import succeeds and each of
the six categories is overwritten verbatim exactly when its key is present
with a truthy value — in particular every present sequence (array) value
overwrites, since arrays are always truthy — while absent keys, and keys
present with a falsy value, leave the store untouched.  No check that the
value is a sequence is performed. -/
theorem import_overwrites_truthy (kvs : List (String × JValue)) (st : Stores) :
    (handleImport (some (JValue.obj kvs)) st).2 = false ∧
    (∀ l : List JValue, truthy (some (JValue.arr l)) = true) ∧
    (handleImport (some (JValue.obj kvs)) st).1.skincare =
      (match lookupJ kvs "skincare" with
       | some v => if truthy (some v) then v else st.skincare
       | none => st.skincare) ∧
    (handleImport (some (JValue.obj kvs)) st).1.haircare =
      (match lookupJ kvs "haircare" with
       | some v => if truthy (some v) then v else st.haircare
       | none => st.haircare) ∧
    (handleImport (some (JValue.obj kvs)) st).1.supplements =
      (match lookupJ kvs "supplements" with
       | some v => if truthy (some v) then v else st.supplements
       | none => st.supplements) ∧
    (handleImport (some (JValue.obj kvs)) st).1.study =
      (match lookupJ kvs "study" with
       | some v => if truthy (some v) then v else st.study
       | none => st.study) ∧
    (handleImport (some (JValue.obj kvs)) st).1.bodycare =
      (match lookupJ kvs "bodycare" with
       | some v => if truthy (some v) then v else st.bodycare
       | none => st.bodycare) ∧
    (handleImport (some (JValue.obj kvs)) st).1.exercise =
      (match lookupJ kvs "exercise" with
       | some v => if truthy (some v) then v else st.exercise
       | none => st.exercise) :=
  ⟨rfl, fun _ => rfl, setIf_match _ _, setIf_match _ _, setIf_match _ _,
    setIf_match _ _, setIf_match _ _, setIf_match _ _⟩

/-- The all-arrays starting state used in the import counterexample. -/
def cexStores : Stores :=
  ⟨JValue.arr [], JValue.arr [], JValue.arr [], JValue.arr [], JValue.arr [],
    JValue.arr []⟩

/-- C3 counterexample: a parsed document whose `skincare` key holds the
non-sequence (truthy) value `"oops"` still overwrites the skincare store,
contradicting "present with a non-sequence value are left exactly as they
were". -/
theorem import_nonseq_value_overwrites_cex :
    jsMember (JValue.obj [("skincare", JValue.str "oops")]) "skincare" =
      some (JValue.str "oops") ∧
    isSeq (JValue.str "oops") = false ∧
    (handleImport (some (JValue.obj [("skincare", JValue.str "oops")])) cexStores).1.skincare ≠
      cexStores.skincare := by
  refine ⟨rfl, rfl, ?_⟩
  show JValue.str "oops" ≠ JValue.arr []
  intro h
  exact JValue.noConfusion h

/-! ### Claims about ToggleToday -/

/-- C1 counterexample: toggling twice on an item whose completion map has
no entry for today does not return the sequence to its original state — an
explicit `false` entry for today is left behind. -/
theorem toggleToday_double_cex :
    toggleComplete "Mon" 1 (toggleComplete "Mon" 1
      [{ id := 1, name := "a", completed := [], createdAt := "t" }]) ≠
      [{ id := 1, name := "a", completed := [], createdAt := "t" }] := by
  decide

/-- C1 (amended): two successive `ToggleToday` calls on the same id and day
return the sequence to its original state whenever every item carrying that
id already has an entry for today's key in its completion map (when the
entry is absent, the double toggle instead leaves an explicit `false` entry
for today); and each call rewrites items pointwise, never touching any
completion entry for a day other than today. -/
theorem toggleToday_double_restores (today : String) (id : Nat) (seq : List Item)
    (h : ∀ item ∈ seq, item.id = id → (lookupKey item.completed today).isSome = true) :
    toggleComplete today id (toggleComplete today id seq) = seq ∧
    (∀ (i : Nat) (item : Item), seq[i]? = some item →
      (toggleComplete today id seq)[i]? = some (toggleItem today id item)) ∧
    (∀ (item : Item) (day : String), day ≠ today →
      lookupKey (toggleItem today id item).completed day = lookupKey item.completed day) := by
  refine ⟨?_, ?_, ?_⟩
  · unfold toggleComplete
    rw [List.map_map]
    apply map_eq_self_of
    intro item hmem
    simp only [Function.comp_apply]
    by_cases hid : item.id = id
    · obtain ⟨b, hb⟩ := Option.isSome_iff_exists.mp (h item hmem hid)
      exact toggleItem_twice_of_some today id item hid b hb
    · rw [toggleItem_of_ne _ _ _ hid, toggleItem_of_ne _ _ _ hid]
  · intro i item hget
    unfold toggleComplete
    rw [List.getElem?_map, hget]
    rfl
  · intro item day hday
    exact toggleItem_frame today id item day hday

theorem toggleToday_double_restores_witness :
    toggleComplete "Mon" 1 (toggleComplete "Mon" 1
      [{ id := 1, name := "a", completed := [("Mon", true)], createdAt := "t" }]) =
      [{ id := 1, name := "a", completed := [("Mon", true)], createdAt := "t" }] :=
  (toggleToday_double_restores "Mon" 1
    [{ id := 1, name := "a", completed := [("Mon", true)], createdAt := "t" }]
    (by decide)).1

/-- C9: when an item's completion map has no entry for today, two
`ToggleToday` calls on its id leave the item (at the same position) with an
explicit entry for today whose value is `false`, rather than restoring the
absence of the entry. -/
theorem toggleToday_twice_absent_false (today : String) (id : Nat) (seq : List Item)
    (i : Nat) (item : Item) (hget : seq[i]? = some item) (hid : item.id = id)
    (habs : lookupKey item.completed today = none) :
    (toggleComplete today id (toggleComplete today id seq))[i]? =
      some (toggleItem today id (toggleItem today id item)) ∧
    lookupKey (toggleItem today id (toggleItem today id item)).completed today =
      some false := by
  constructor
  · unfold toggleComplete
    rw [List.getElem?_map, List.getElem?_map, hget]
    rfl
  · exact toggleItem_twice_of_none today id item hid habs

theorem toggleToday_twice_absent_false_witness :
    (toggleComplete "Mon" 1 (toggleComplete "Mon" 1
      [{ id := 1, name := "a", completed := [], createdAt := "t" }]))[0]? =
      some (toggleItem "Mon" 1 (toggleItem "Mon" 1
        { id := 1, name := "a", completed := [], createdAt := "t" })) ∧
    lookupKey (toggleItem "Mon" 1 (toggleItem "Mon" 1
      { id := 1, name := "a", completed := [], createdAt := "t" })).completed "Mon" =
      some false :=
  toggleToday_twice_absent_false "Mon" 1
    [{ id := 1, name := "a", completed := [], createdAt := "t" }] 0
    { id := 1, name := "a", completed := [], createdAt := "t" } rfl rfl rfl

/-! ### Claims about Delete and totality -/

/-- C10: `Delete(id)` removes every item whose id equals the argument (not
only the first match), keeps every item whose id differs, and the result is
a sublist of the original, so the remaining items keep their relative
order. -/
theorem deleteItem_removes_all (id : Nat) (seq : List Item) :
    List.Sublist (deleteItem id seq) seq ∧
    (∀ item ∈ deleteItem id seq, item.id ≠ id) ∧
    (∀ item ∈ seq, item.id ≠ id → item ∈ deleteItem id seq) := by
  unfold deleteItem
  refine ⟨List.filter_sublist _, ?_, ?_⟩
  · intro item hmem
    have hp := (List.mem_filter.mp hmem).2
    simpa using hp
  · intro item hmem hne
    exact List.mem_filter.mpr ⟨hmem, by simpa using hne⟩

/-- A concrete tracked item shared by several witnesses. -/
def itemA : Item := { id := 1, name := "a", completed := [], createdAt := "t" }

/-- A second concrete tracked item shared by several witnesses. -/
def itemB : Item := { id := 2, name := "b", completed := [], createdAt := "t" }

theorem deleteItem_removes_all_witness : itemA ∈ deleteItem 2 [itemA, itemB] :=
  (deleteItem_removes_all 2 [itemA, itemB]).2.2 itemA (by decide) (by decide)

/-- C6: the four store operations are total functions on (sequence,
arguments); malformed input degrades to a silent no-op: adding or renaming
with a name that trims to empty leaves the sequence unchanged, and
renaming, deleting, or toggling an id not present in the sequence leaves it
unchanged. -/
theorem ops_noop_on_invalid (now : Nat) (ca name nn today : String) (id : Nat)
    (seq : List Item) :
    (jsTrim name = "" → addItem now ca name seq = seq) ∧
    (jsTrim nn = "" → saveEdit id nn seq = seq) ∧
    ((∀ item ∈ seq, item.id ≠ id) →
      saveEdit id nn seq = seq ∧ deleteItem id seq = seq ∧
        toggleComplete today id seq = seq) := by
  refine ⟨?_, ?_, ?_⟩
  · intro h; simp [addItem, h]
  · intro h; simp [saveEdit, h]
  · intro h
    refine ⟨?_, ?_, ?_⟩
    · unfold saveEdit
      split
      · apply map_eq_self_of
        intro a ha
        rw [if_neg (h a ha)]
      · rfl
    · unfold deleteItem
      rw [List.filter_eq_self]
      intro a ha
      simpa using h a ha
    · unfold toggleComplete
      apply map_eq_self_of
      intro a ha
      exact toggleItem_of_ne _ _ _ (h a ha)

theorem ops_noop_on_invalid_witness :
    addItem 7 "t" "  " [itemA] = [itemA] ∧ saveEdit 1 "  " [itemA] = [itemA] ∧
    (saveEdit 9 "x" [itemA] = [itemA] ∧ deleteItem 9 [itemA] = [itemA] ∧
      toggleComplete "Mon" 9 [itemA] = [itemA]) :=
  ⟨(ops_noop_on_invalid 7 "t" "  " "  " "Mon" 1 [itemA]).1 (by decide),
   (ops_noop_on_invalid 7 "t" "  " "  " "Mon" 1 [itemA]).2.1 (by decide),
   (ops_noop_on_invalid 7 "t" "  " "x" "Mon" 9 [itemA]).2.2 (by decide)⟩

/-! ### Claims about Rename, Add and BulkSeed -/

/-- C7: when the sequence has unique ids and contains the target id at
position `i`, `Rename(id, newName)` with a name that is non-empty after
trimming replaces exactly that position with the same item carrying the
trimmed name — id, completion map, creation timestamp, every other item and
the order of the sequence are all unchanged. -/
theorem saveEdit_renames_only_target (tid : Nat) (nn : String)
    (hnn : jsTrim nn ≠ "") :
    ∀ (seq : List Item) (i : Nat) (hi : i < seq.length),
      (seq.map Item.id).Nodup → (seq.get ⟨i, hi⟩).id = tid →
      saveEdit tid nn seq = seq.set i { seq.get ⟨i, hi⟩ with name := jsTrim nn } := by
  intro seq
  induction seq with
  | nil =>
    intro i hi
    exact absurd hi (by simp)
  | cons hd tl ih =>
    intro i hi hnd hid
    rw [List.map_cons, List.nodup_cons] at hnd
    obtain ⟨hnotin, hndtl⟩ := hnd
    unfold saveEdit
    rw [if_pos hnn]
    cases i with
    | zero =>
      have hhd : hd.id = tid := hid
      have htl : tl.map (fun item =>
          if item.id = tid then { item with name := jsTrim nn } else item) = tl := by
        apply map_eq_self_of
        intro a ha
        have hane : a.id ≠ tid := by
          intro hcontra
          exact hnotin (hhd ▸ hcontra ▸ List.mem_map_of_mem Item.id ha)
        rw [if_neg hane]
      simp only [List.map_cons]
      rw [if_pos hhd, htl]
      rfl
    | succ j =>
      have hj : j < tl.length := Nat.lt_of_succ_lt_succ (by simpa using hi)
      have hidj : (tl.get ⟨j, hj⟩).id = tid := hid
      have hhd : hd.id ≠ tid := by
        intro hcontra
        apply hnotin
        rw [hcontra, ← hidj]
        exact List.mem_map_of_mem Item.id (List.get_mem tl j hj)
      have ihj := ih j hj hndtl hidj
      unfold saveEdit at ihj
      rw [if_pos hnn] at ihj
      simp only [List.map_cons]
      rw [if_neg hhd, ihj]
      rfl

theorem saveEdit_renames_only_target_witness :
    saveEdit 2 " c " [itemA, itemB] =
      [itemA, { id := 2, name := "c", completed := [], createdAt := "t" }] := by
  rw [saveEdit_renames_only_target 2 " c " (by decide) [itemA, itemB] 1
    (by decide) (by decide) (by decide)]
  decide

/-- C2 counterexample: when `Date.now()` returns a value already used as an
id (here both are 5), the appended item's id collides with an existing one,
so "the new item's id is unique within C" fails as stated. -/
theorem addItem_id_collision_cex :
    ¬ (((addItem 5 "t" "b"
      [{ id := 5, name := "a", completed := [], createdAt := "t" }]).map
        Item.id).Nodup) := by
  decide

/-- C2 (amended): for a name that is non-empty after trimming, `Add`
appends exactly one item at the end of the sequence, carrying the trimmed
name, an empty completion map and the creation timestamp; all existing
items are untouched, the count grows by exactly 1, and — provided the
`Date.now()` value used as the fresh id differs from every existing id —
ids remain unique within the category. -/
theorem addItem_appends_fresh (now : Nat) (ca name : String) (seq : List Item)
    (hname : jsTrim name ≠ "") (hfresh : now ∉ seq.map Item.id)
    (hnd : (seq.map Item.id).Nodup) :
    addItem now ca name seq =
      seq ++ [{ id := now, name := jsTrim name, completed := [], createdAt := ca }] ∧
    (addItem now ca name seq).length = seq.length + 1 ∧
    ((addItem now ca name seq).map Item.id).Nodup := by
  have h1 : addItem now ca name seq =
      seq ++ [{ id := now, name := jsTrim name, completed := [], createdAt := ca }] := by
    unfold addItem
    rw [if_pos hname]
  refine ⟨h1, ?_, ?_⟩
  · rw [h1]; simp
  · rw [h1, List.map_append, List.nodup_append]
    refine ⟨hnd, by simp, ?_⟩
    intro a ha hb
    simp only [List.map_cons, List.map_nil, List.mem_singleton] at hb
    subst hb
    exact hfresh ha

theorem addItem_appends_fresh_witness :
    addItem 9 "t" " b " [itemA] =
      [itemA] ++ [{ id := 9, name := jsTrim " b ", completed := [], createdAt := "t" }] ∧
    (addItem 9 "t" " b " [itemA]).length = [itemA].length + 1 ∧
    ((addItem 9 "t" " b " [itemA]).map Item.id).Nodup :=
  addItem_appends_fresh 9 "t" " b " [itemA] (by decide) (by decide) (by decide)

/-! ### BulkSeed lemmas -/

theorem seedItems_length (gen : Nat → Nat) (ca : String) :
    ∀ (names : List String) (m : Nat), (seedItems gen ca m names).length = names.length := by
  intro names
  induction names with
  | nil => intro m; rfl
  | cons n rest ih =>
    intro m
    show (seedItems gen ca (m + 1) rest).length + 1 = rest.length + 1
    rw [ih]

theorem seedItems_map_id (gen : Nat → Nat) (ca : String) :
    ∀ (names : List String) (m : Nat),
      (seedItems gen ca m names).map Item.id = (List.range' m names.length).map gen := by
  intro names
  induction names with
  | nil => intro m; rfl
  | cons n rest ih =>
    intro m
    show gen m :: (seedItems gen ca (m + 1) rest).map Item.id =
      (List.range' m (rest.length + 1)).map gen
    rw [ih]
    rfl

theorem seedItems_getElem (gen : Nat → Nat) (ca : String) :
    ∀ (names : List String) (m k : Nat),
      (seedItems gen ca m names)[k]? =
        (names[k]?).map
          (fun n => { id := gen (m + k), name := n, completed := [], createdAt := ca }) := by
  intro names
  induction names with
  | nil => intro m k; rfl
  | cons n rest ih =>
    intro m k
    cases k with
    | zero => simp [seedItems]
    | succ j =>
      have hstep : (seedItems gen ca m (n :: rest))[j + 1]? =
          (seedItems gen ca (m + 1) rest)[j]? := by
        simp [seedItems]
      rw [hstep, ih (m + 1) j]
      have harith : (m + 1) + j = m + (j + 1) := by omega
      rw [harith]
      simp

/-- C8 counterexample: when the two draws of `Date.now() + Math.random()`
coincide (modelled by a constant generator), the two seeded items share an
id, so "the generated ids are pairwise distinct" fails as stated. -/
theorem bulkSeed_id_collision_cex :
    ¬ (((addDefaultItems (fun _ => 0) "t" ["Read for 30 minutes", "Review notes"] []).map
        Item.id).Nodup) := by
  decide

/-- C8 (amended): `BulkSeed` appends one item per default name, in input
order, each with an empty completion map; existing items and their
positions are untouched; and — provided the successive
`Date.now() + Math.random()` draws are pairwise distinct and avoid every
existing id — all ids in the result are distinct.  In particular, on an
empty category with two names the result has exactly the two items in
order with empty completion maps and distinct ids. -/
theorem addDefaultItems_spec (gen : Nat → Nat) (ca : String) (names : List String)
    (seq : List Item)
    (hgen : ((List.range names.length).map gen).Nodup)
    (hfresh : ∀ k < names.length, gen k ∉ seq.map Item.id)
    (hnd : (seq.map Item.id).Nodup) :
    (addDefaultItems gen ca names seq).length = seq.length + names.length ∧
    (∀ j < seq.length, (addDefaultItems gen ca names seq)[j]? = seq[j]?) ∧
    (∀ k : Nat, (addDefaultItems gen ca names seq)[seq.length + k]? =
      (names[k]?).map
        (fun n => { id := gen k, name := n, completed := [], createdAt := ca })) ∧
    ((addDefaultItems gen ca names seq).map Item.id).Nodup := by
  refine ⟨?_, ?_, ?_, ?_⟩
  · unfold addDefaultItems
    rw [List.length_append, seedItems_length]
  · intro j hj
    unfold addDefaultItems
    rw [List.getElem?_append, if_pos hj]
  · intro k
    unfold addDefaultItems
    rw [List.getElem?_append_right (by omega : seq.length ≤ seq.length + k)]
    have harith : seq.length + k - seq.length = k := by omega
    rw [harith, seedItems_getElem]
    rw [Nat.zero_add]
  · unfold addDefaultItems
    rw [List.map_append, List.nodup_append]
    refine ⟨hnd, ?_, ?_⟩
    · rw [seedItems_map_id, ← List.range_eq_range']
      exact hgen
    · intro a ha hb
      rw [seedItems_map_id, ← List.range_eq_range'] at hb
      simp only [List.mem_map, List.mem_range] at hb
      obtain ⟨k, hk, hak⟩ := hb
      exact hfresh k hk (hak ▸ ha)

theorem addDefaultItems_spec_witness :
    (addDefaultItems (fun k => k) "t" ["Read for 30 minutes", "Review notes"] []).length =
      0 + 2 ∧
    ((addDefaultItems (fun k => k) "t" ["Read for 30 minutes", "Review notes"] []).map
      Item.id).Nodup :=
  ⟨(addDefaultItems_spec (fun k => k) "t" ["Read for 30 minutes", "Review notes"] []
      (by decide) (by decide) (by decide)).1,
   (addDefaultItems_spec (fun k => k) "t" ["Read for 30 minutes", "Review notes"] []
      (by decide) (by decide) (by decide)).2.2.2⟩

end Tracker
